import Mathlib

/-!
# DevLake: task data of the GitLab plugin and the end-to-end row-count tests

Shallow embedding of

* `plugins/gitlab/tasks/task_data.go` (`GitlabOptions`, `GitlabTaskData`),
* `e2e/gitlab_commits_test.go` (`Commit`, `TestGitLabCommits`),
* `e2e/jira_sprint_issues_test.go` (`JiraSprintIssue`, `TestJiraSprintIssues`).

Go values are embedded as follows: a `string` is a list of bytes, `uint64` is a
natural number below `2 ^ 64`, `int` is an integer in the 64-bit signed range,
a pointer is an `Option` (`none` is `nil`), a slice is an `Option (List _)`
(`none` is the `nil` slice), and `time.Time` is an instant counted in
nanoseconds.

The development has four parts: the structs of the task data, the two tests
with the lake tables and queries they read, the JSON encoding of
`GitlabOptions` that its struct tags prescribe, and a model of the collection
engine that consumes the task data.
-/

namespace DevLake

/-! ## Go values -/

/-- A Go `string`: an arbitrary sequence of bytes. -/
abbrev GoString := List (Fin 256)

/-- A Go `time.Time`, as the instant it denotes (nanoseconds since the epoch). -/
abbrev Time := Int

/-- The range of Go `uint64`. -/
def isUint64 (n : Nat) : Prop := n < 2 ^ 64

/-- The range of Go `int` (64-bit platforms). -/
def isInt (i : Int) : Prop := -(2 ^ 63) ≤ i ∧ i < 2 ^ 63

instance (n : Nat) : Decidable (isUint64 n) := by unfold isUint64; infer_instance

instance (i : Int) : Decidable (isInt i) := by unfold isInt; infer_instance

/-- A Go `error` value. -/
structure GoError where
  code : Nat
deriving DecidableEq, Repr

/-! ## `plugins/gitlab/tasks/task_data.go` -/

/-- The struct `GitlabOptions`: `ConnectionId uint64`, `ProjectId int`,
`Tasks []string`. -/
structure GitlabOptions where
  ConnectionId : Nat
  ProjectId : Int
  Tasks : Option (List GoString)
deriving DecidableEq, Repr

/-- The struct `GitlabTaskData`.  `helper.ApiAsyncClient` and
`models.GitlabProjectCommit` are declared in other packages and stay abstract. -/
structure GitlabTaskData (ApiAsyncClient GitlabProjectCommit : Type) where
  Options : Option GitlabOptions
  ApiClient : Option ApiAsyncClient
  ProjectCommit : Option GitlabProjectCommit
  Since : Option Time

/-- Every numeric field of the options lies in the range of its Go type. -/
def GitlabOptions.WellTyped (o : GitlabOptions) : Prop :=
  isUint64 o.ConnectionId ∧ isInt o.ProjectId

instance (o : GitlabOptions) : Decidable o.WellTyped := by
  unfold GitlabOptions.WellTyped; infer_instance

/-- The sub-task names of the options, in order (`len` of a `nil` slice is 0). -/
def GitlabOptions.taskNames (o : GitlabOptions) : List GoString :=
  o.Tasks.getD []

/-! ## The lake tables read by the end-to-end tests -/

/-- A SQL `DATETIME` value, compared field by field from the year down. -/
structure DateTime where
  year : Nat
  month : Nat
  day : Nat
  hour : Nat
  minute : Nat
  second : Nat
  micro : Nat
deriving DecidableEq, Repr

/-- Strict lexicographic order on lists of naturals of equal length. -/
def lexLt : List Nat → List Nat → Bool
  | a :: as, b :: bs => decide (a < b) || (decide (a = b) && lexLt as bs)
  | _, _ => false

/-- The fields of a `DateTime`, most significant first. -/
def DateTime.fields (d : DateTime) : List Nat :=
  [d.year, d.month, d.day, d.hour, d.minute, d.second, d.micro]

/-- The SQL comparison `a < b` on two non-NULL datetimes. -/
def DateTime.before (a b : DateTime) : Bool :=
  lexLt a.fields b.fields

/-- SQL `a < b` with a possibly NULL left operand: NULL gives UNKNOWN (`none`). -/
def sqlLt (a : Option DateTime) (b : DateTime) : Option Bool :=
  a.map (fun d => d.before b)

/-- SQL `a = b` on possibly NULL integers: NULL gives UNKNOWN (`none`). -/
def sqlEq (a b : Option Int) : Option Bool :=
  match a, b with
  | some x, some y => some (decide (x = y))
  | _, _ => none

/-- A `WHERE` or `ON` condition keeps a row only when it evaluates to TRUE. -/
def sqlTrue (c : Option Bool) : Bool :=
  c == some true

/-- A row of `gitlab_commits`: the columns the test reads. -/
structure GitlabCommitRow where
  sha : Option GoString
  authored_date : Option DateTime
deriving DecidableEq, Repr

/-- A row of `lake.jira_sprint_issues`: the columns the test reads. -/
structure JiraSprintIssueRow where
  sprint_id : Int
  issue_id : Option Int
deriving DecidableEq, Repr

/-- A row of `jira_issues`: the columns the test reads. -/
structure JiraIssueRow where
  issue_id : Option Int
  resolution_date : Option DateTime
deriving DecidableEq, Repr

/-- The database behind the handle returned by `InitializeDb`: the contents of
the three tables and the error, if any, with which `db.Query` fails. -/
structure Database where
  gitlab_commits : List GitlabCommitRow
  jira_sprint_issues : List JiraSprintIssueRow
  jira_issues : List JiraIssueRow
  queryError : Option GoError

/-- The literal `'2019-06-25 02:41:42.000'` of the commits query. -/
def commitsCutoff : DateTime := ⟨2019, 6, 25, 2, 41, 42, 0⟩

/-- The literal `'2020-06-19 06:31:18.495'` of the sprint-issues query. -/
def sprintIssuesCutoff : DateTime := ⟨2020, 6, 19, 6, 31, 18, 495000⟩

/-- Rows of
`SELECT sha FROM gitlab_commits where authored_date < '2019-06-25 02:41:42.000'`. -/
def commitsQuery (db : Database) : List (Option GoString) :=
  (db.gitlab_commits.filter
    (fun r => sqlTrue (sqlLt r.authored_date commitsCutoff))).map (fun r => r.sha)

/-- Rows of
`SELECT si.issue_id FROM lake.jira_sprint_issues si JOIN jira_issues ji
ON ji.issue_id = si.issue_id where resolution_date < '2020-06-19 06:31:18.495'`;
`resolution_date` is the column of `jira_issues`. -/
def sprintIssuesQuery (db : Database) : List (Option Int) :=
  db.jira_sprint_issues.flatMap (fun si =>
    (db.jira_issues.filter (fun ji =>
      sqlTrue (sqlEq ji.issue_id si.issue_id) &&
        sqlTrue (sqlLt ji.resolution_date sprintIssuesCutoff))).map
      (fun _ => si.issue_id))

/-- The call `db.Query(sqlCommand)`: on failure the result set is `nil` and the
error is set, otherwise the result set holds the rows of the query. -/
def Database.Query {α : Type} (db : Database) (rows : Database → List α) :
    Except GoError (List α) :=
  match db.queryError with
  | some e => .error e
  | none => .ok (rows db)

/-- The call `rows.Scan(&s)` for a Go `string` destination: NULL cannot be
converted. -/
def scanString : Option GoString → Except GoError GoString
  | some s => .ok s
  | none => .error ⟨1⟩

/-- The call `rows.Scan(&i)` for a Go `int` destination: NULL cannot be
converted, and neither can a value outside the range of `int`. -/
def scanInt : Option Int → Except GoError Int
  | some v => if isInt v then .ok v else .error ⟨2⟩
  | none => .error ⟨1⟩

/-! ## `e2e/gitlab_commits_test.go`, `e2e/jira_sprint_issues_test.go` -/

/-- The struct `Commit` of the commits test. -/
structure Commit where
  Sha : GoString
deriving DecidableEq, Repr

/-- The struct `JiraSprintIssue` of the sprint-issues test. -/
structure JiraSprintIssue where
  IssueId : Int
deriving DecidableEq, Repr

/-- What a test does, step by step.  The flag of `deferClose`, `next` and
`close` tells whether the result set they act on is present (non-`nil`). -/
inductive Event where
  | assertNil (passed : Bool)
  | logFatal
  | query (succeeded : Bool)
  | printError
  | deferClose (present : Bool)
  | next (present : Bool)
  | scan (succeeded : Bool)
  | append
  | assertEqual (expected actual : Nat)
  | close (present : Bool)
deriving DecidableEq, Repr

/-- How a test function ends: it returns, `log.Fatal` exits the process, or it
panics. -/
inductive Exit where
  | returned
  | fatal
  | panicked
deriving DecidableEq, Repr

/-- One execution of a test: its steps, the slice it has built, how it ended. -/
structure TestRun (α : Type) where
  events : List Event
  collected : List α
  exit : Exit

/-- An event that marks the test as failed (`t.Failed()`). -/
def Event.isFailure : Event → Bool
  | .assertNil passed => !passed
  | .assertEqual expected actual => !decide (expected = actual)
  | _ => false

/-- Whether a failed assertion was recorded during the run. -/
def TestRun.failed {α : Type} (r : TestRun α) : Bool :=
  r.events.any Event.isFailure

/-- The loop `for rows.Next() { ...Scan...; slice = append(slice, v) }` over a
present result set.  It yields the steps taken and the slice built, with
`false` when a `Scan` error made the body panic. -/
def rowLoop {γ α : Type} (scan : γ → Except GoError α) :
    List γ → List α → List Event × List α × Bool
  | [], acc => ([.next true], acc, true)
  | v :: rest, acc =>
    match scan v with
    | .error _ => ([.next true, .scan false], acc, false)
    | .ok a =>
      let r := rowLoop scan rest (acc ++ [a])
      (.next true :: .scan true :: .append :: r.1, r.2.1, r.2.2)

/-- The body shared by both tests after the query text is fixed: `expected` is
the literal of the final `assert.Equal`. -/
def runQueryTest {γ α : Type} (init : Except GoError Database)
    (rows : Database → List γ) (scan : γ → Except GoError α) (expected : Nat) :
    TestRun α :=
  match init with
  | .error _ =>
    -- assert.Nil(t, err) fails; log.Fatal(err) exits
    ⟨[.assertNil false, .logFatal], [], .fatal⟩
  | .ok db =>
    match db.Query rows with
    | .error _ =>
      -- rows == nil: Println, assert.Nil fails, defer rows.Close(), rows.Next()
      -- dereferences nil and panics, the deferred Close runs on nil
      ⟨[.assertNil true, .query false, .printError, .assertNil false,
        .deferClose false, .next false, .close false], [], .panicked⟩
    | .ok rs =>
      let r := rowLoop scan rs []
      if r.2.2 then
        ⟨[.assertNil true, .query true, .assertNil true, .deferClose true] ++ r.1 ++
          [.assertEqual expected r.2.1.length, .close true], r.2.1, .returned⟩
      else
        ⟨[.assertNil true, .query true, .assertNil true, .deferClose true] ++ r.1 ++
          [.close true], r.2.1, .panicked⟩

/-- The test `TestGitLabCommits`; `init` is what `InitializeDb()` returns. -/
def TestGitLabCommits (init : Except GoError Database) : TestRun Commit :=
  runQueryTest init commitsQuery (fun v => (scanString v).map Commit.mk) 2817

/-- The test `TestJiraSprintIssues`; `init` is what `InitializeDb()` returns. -/
def TestJiraSprintIssues (init : Except GoError Database) : TestRun JiraSprintIssue :=
  runQueryTest init sprintIssuesQuery (fun v => (scanInt v).map JiraSprintIssue.mk) 78

/-- The pair of a sprint-issue row and an issue row the sprint-issues query
counts: equal, non-NULL `issue_id`, and a `resolution_date` that is present and
before the cutoff. -/
def resolvedPair (p : JiraSprintIssueRow × JiraIssueRow) : Bool :=
  match p.1.issue_id, p.2.issue_id, p.2.resolution_date with
  | some a, some b, some d => decide (a = b) && d.before sprintIssuesCutoff
  | _, _, _ => false

/-- The commit row the commits query counts: an `authored_date` that is present
and before the cutoff. -/
def authoredEarlier (r : GitlabCommitRow) : Bool :=
  match r.authored_date with
  | some d => d.before commitsCutoff
  | none => false

/-- The steps of the row loop act on a present result set only, and none of
them is an assertion. -/
def Event.inLoop : Event → Bool
  | .next true => true
  | .scan _ => true
  | .append => true
  | _ => false


/-- A small lake: three commits, of which one is authored before the cutoff, one
exactly at the cutoff, and one has no `authored_date`. -/
def sampleCommitsDb : Database :=
  { gitlab_commits :=
      [⟨some [97], some ⟨2019, 6, 25, 2, 41, 41, 999000⟩⟩,
       ⟨some [98], some commitsCutoff⟩,
       ⟨some [99], none⟩]
    jira_sprint_issues := []
    jira_issues := []
    queryError := none }

/-- A small lake: sprint issue 7 is in two sprints and resolved before the
cutoff, sprint issue 8 is resolved exactly at the cutoff, sprint issue 9 is
unresolved. -/
def sampleSprintDb : Database :=
  { gitlab_commits := []
    jira_sprint_issues := [⟨1, some 7⟩, ⟨2, some 7⟩, ⟨1, some 8⟩, ⟨1, some 9⟩]
    jira_issues :=
      [⟨some 7, some ⟨2020, 6, 19, 6, 31, 18, 494999⟩⟩,
       ⟨some 8, some sprintIssuesCutoff⟩,
       ⟨some 9, none⟩]
    queryError := none }

/-- The steps of a test whose query failed, up to the panic on the absent
result set and the deferred `Close` that runs while panicking. -/
def failedQuerySteps : List Event :=
  [.assertNil true, .query false, .printError, .assertNil false,
    .deferClose false, .next false, .close false]

/-- The steps a test takes on a result set; they never touch an absent one. -/
def Event.onResultSet : Event → Option Bool
  | .deferClose present => some present
  | .next present => some present
  | .close present => some present
  | _ => none

/-- The step is the final `assert.Equal` on the length of the slice. -/
def Event.isCount : Event → Bool
  | .assertEqual _ _ => true
  | _ => false

/-- A lake whose query fails. -/
def brokenDb : Database :=
  { gitlab_commits := [⟨some [97], some ⟨2019, 1, 1, 0, 0, 0, 0⟩⟩]
    jira_sprint_issues := [⟨1, some 7⟩]
    jira_issues := [⟨some 7, some ⟨2020, 1, 1, 0, 0, 0, 0⟩⟩]
    queryError := some ⟨1146⟩ }

/-- The bytes of an ASCII string literal. -/
def ascii (s : String) : GoString :=
  s.data.map (fun c => Fin.ofNat c.toNat)

/-- The sub-task name `"commits"`. -/
def commitsTask : GoString := ascii "commits"

/-- The sub-task name `"issues"`. -/
def issuesTask : GoString := ascii "issues"

/-- Two rows of `gitlab_commits` with the same sha and different dates. -/
def earlyRow : GitlabCommitRow := ⟨some [97], some ⟨2019, 1, 1, 0, 0, 0, 0⟩⟩

/-- The row `earlyRow` authored a year later. -/
def lateRow : GitlabCommitRow := ⟨some [97], some ⟨2020, 1, 1, 0, 0, 0, 0⟩⟩

/-! ## `encoding/json` on `GitlabOptions`

The struct tags of `GitlabOptions` are `json:"connectionId"`,
`json:"projectId"` and `json:"tasks,omitempty"`.  Encoding and decoding are
modelled on JSON values rather than on JSON text: a string value holds the
UTF-8 bytes of its content, escapes resolved. -/

/-- Lower bound of the second byte of a multi-byte encoding led by `b0`
(the accept ranges of `unicode/utf8`). -/
def secondLo (b0 : Fin 256) : Nat :=
  if b0.val = 0xE0 then 0xA0 else if b0.val = 0xF0 then 0x90 else 0x80

/-- Upper bound of the second byte of a multi-byte encoding led by `b0`. -/
def secondHi (b0 : Fin 256) : Nat :=
  if b0.val = 0xED then 0x9F else if b0.val = 0xF4 then 0x8F else 0xBF

/-- A continuation byte `10xxxxxx`. -/
def isCont (b : Fin 256) : Bool :=
  decide (0x80 ≤ b.val ∧ b.val ≤ 0xBF)

/-- The second byte fits the accept range of the lead byte. -/
def isSecond (b0 b1 : Fin 256) : Bool :=
  decide (secondLo b0 ≤ b1.val ∧ b1.val ≤ secondHi b0)

/-- The size reported by `utf8.DecodeRune` for a valid encoding at the head of
`s`, and 0 when the head is not one (where `DecodeRune` reports `RuneError`
with size 1, or size 0 on empty input). -/
def runeSize : GoString → Nat
  | [] => 0
  | b0 :: rest =>
    if b0.val < 0x80 then 1
    else if 0xC2 ≤ b0.val ∧ b0.val ≤ 0xDF then
      match rest with
      | b1 :: _ => if isSecond b0 b1 then 2 else 0
      | _ => 0
    else if 0xE0 ≤ b0.val ∧ b0.val ≤ 0xEF then
      match rest with
      | b1 :: b2 :: _ => if isSecond b0 b1 && isCont b2 then 3 else 0
      | _ => 0
    else if 0xF0 ≤ b0.val ∧ b0.val ≤ 0xF4 then
      match rest with
      | b1 :: b2 :: b3 :: _ => if isSecond b0 b1 && isCont b2 && isCont b3 then 4 else 0
      | _ => 0
    else 0

/-- The function `utf8.Valid`, with `pending` bytes of the current encoding
still to pass. -/
def validFrom : Nat → GoString → Bool
  | _, [] => true
  | k + 1, _ :: rest => validFrom k rest
  | 0, b :: rest => decide (runeSize (b :: rest) ≠ 0) && validFrom (runeSize (b :: rest) - 1) rest

/-- The function `utf8.Valid`. -/
def validUTF8 (s : GoString) : Bool :=
  validFrom 0 s

/-- Copy of a string in which every byte that does not start a valid encoding
is replaced by the encoding `EF BF BD` of U+FFFD, as both the encoder and the
decoder of `encoding/json` do; `pending` counts bytes of the current encoding
still to copy. -/
def coerceFrom : Nat → GoString → GoString
  | _, [] => []
  | k + 1, b :: rest => b :: coerceFrom k rest
  | 0, b :: rest =>
    if runeSize (b :: rest) = 0 then 0xEF :: 0xBF :: 0xBD :: coerceFrom 0 rest
    else b :: coerceFrom (runeSize (b :: rest) - 1) rest

/-- The string as `encoding/json` writes and reads it. -/
def toValidUTF8 (s : GoString) : GoString :=
  coerceFrom 0 s

/-- A JSON value.  `int` is a number literal without fraction or exponent,
`number` any other number literal. -/
inductive JValue where
  | null
  | bool (b : Bool)
  | int (n : Int)
  | number (literal : GoString)
  | str (s : GoString)
  | arr (items : List JValue)
  | obj (members : List (GoString × JValue))

/-- The keys of a JSON object, in order. -/
def JValue.keys : JValue → List GoString
  | .obj members => members.map (fun m => m.1)
  | _ => []

/-- The call `json.Marshal(options)`: the fields in declaration order under
their tag names, `tasks` left out when the slice has length 0 (`omitempty`). -/
def Marshal (o : GitlabOptions) : JValue :=
  .obj ([(ascii "connectionId", .int o.ConnectionId), (ascii "projectId", .int o.ProjectId)] ++
    (if o.taskNames.isEmpty then []
     else [(ascii "tasks", .arr (o.taskNames.map (fun s => JValue.str (toValidUTF8 s))))]))

/-- ASCII case folding of a byte. -/
def foldAscii (b : Fin 256) : Fin 256 :=
  if 65 ≤ b.val ∧ b.val ≤ 90 then b + 32 else b

/-- A key selects the field of that tag name, exactly or up to ASCII case. -/
def keyMatches (name key : GoString) : Bool :=
  decide (key = name) || decide (key.map foldAscii = name.map foldAscii)

/-- The fields of `GitlabOptions`. -/
inductive Field where
  | connectionId
  | projectId
  | tasks
deriving DecidableEq, Repr

/-- The field a key of a JSON object decodes into, if any. -/
def fieldOf (key : GoString) : Option Field :=
  if keyMatches (ascii "connectionId") key then some .connectionId
  else if keyMatches (ascii "projectId") key then some .projectId
  else if keyMatches (ascii "tasks") key then some .tasks
  else none

/-- Decoding into a `uint64` field holding `cur`: `null` leaves it, an integer
literal in range sets it, anything else is an `UnmarshalTypeError`. -/
def decodeUint64 (cur : Nat) : JValue → Except GoError Nat
  | .null => .ok cur
  | .int n => if 0 ≤ n ∧ n < 2 ^ 64 then .ok n.toNat else .error ⟨3⟩
  | _ => .error ⟨3⟩

/-- Decoding into an `int` field holding `cur`. -/
def decodeInt (cur : Int) : JValue → Except GoError Int
  | .null => .ok cur
  | .int n => if isInt n then .ok n else .error ⟨3⟩
  | _ => .error ⟨3⟩

/-- Decoding into a fresh element of a `[]string`. -/
def decodeElem : JValue → Except GoError GoString
  | .null => .ok []
  | .str s => .ok (toValidUTF8 s)
  | _ => .error ⟨3⟩

/-- Decoding into a `[]string` field: `null` sets the `nil` slice, an array
sets a slice of its elements (non-`nil` even when empty). -/
def decodeStrings : JValue → Except GoError (Option (List GoString))
  | .null => .ok none
  | .arr items => (items.mapM decodeElem).map some
  | _ => .error ⟨3⟩

/-- Decoding one member of the object into the options; unknown keys are
skipped. -/
def decodeMember (o : GitlabOptions) (m : GoString × JValue) : Except GoError GitlabOptions :=
  match fieldOf m.1 with
  | none => .ok o
  | some .connectionId =>
    (decodeUint64 o.ConnectionId m.2).map (fun n => { o with ConnectionId := n })
  | some .projectId =>
    (decodeInt o.ProjectId m.2).map (fun n => { o with ProjectId := n })
  | some .tasks =>
    (decodeStrings m.2).map (fun ts => { o with Tasks := ts })

/-- The call `json.Unmarshal(data, &options)` on a zero `options`: the members
of the object are decoded in order, a later member for a field replacing what
an earlier one set; `null` leaves the zero value. -/
def Unmarshal : JValue → Except GoError GitlabOptions
  | .null => .ok ⟨0, 0, none⟩
  | .obj members => members.foldlM decodeMember ⟨0, 0, none⟩
  | _ => .error ⟨3⟩

/-- Options at the top of the `uint64` range, with a task name outside ASCII
(`"é"` is `C3 A9`). -/
def sampleOptions : GitlabOptions :=
  ⟨2 ^ 64 - 1, -42, some [commitsTask, [0xC3, 0xA9]]⟩

/-! ## The collection engine

The collector, the paginator and the constructor of the task context are not
among the sources of this development; they are modelled from sections 3, 4.3,
4.4 and 4.5 of the specification, for runs in which every page request
succeeds. -/

/-- Modelled from the spec: the Raw Record of section 3, which is not declared
in the sources; it carries its resource name, a stable external identifier, the
timestamp used for watermark comparison, and an opaque payload. -/
structure RawRecord where
  resource : GoString
  id : GoString
  timestamp : Time
  payload : GoString
deriving DecidableEq, Repr

/-- Modelled from the spec: the Task Context of section 3, the scoping data a
`GitlabTaskData` holds with its options dereferenced: connection identifier,
project identifier, ordered sub-task names (empty means all), watermark
(`none` means full sync). -/
structure TaskContext where
  connection : Nat
  project : Int
  tasks : List GoString
  since : Option Time
deriving DecidableEq, Repr

/-- Modelled from the spec: the Connection of section 3, which is not declared
in the sources: numeric identifier, base URL, auth token, and whether it is
enabled. -/
structure Connection where
  id : Nat
  baseUrl : GoString
  token : GoString
  enabled : Bool
deriving DecidableEq, Repr

/-- Modelled from the spec: the grounds on which section 4.5 rejects a task
context with a `ValidationError`; the validation code is not in the sources. -/
inductive ValidationError where
  | unknownConnection
  | disabledConnection
  | malformedProject
  | sinceInFuture
deriving DecidableEq, Repr

/-- Modelled from the spec: the construction of a task context of section 4.5,
whose code is not in the sources.  The connection identifier must resolve to a
known, enabled connection, the project identifier must be well-formed for the
target service (`projectOk`), and `Since`, if present, must not be in the future
relative to the collection start time. -/
def NewTaskContext (connections : List Connection) (projectOk : Int → Bool) (start : Time)
    (o : GitlabOptions) (since : Option Time) : Except ValidationError TaskContext :=
  match connections.find? (fun c => decide (c.id = o.ConnectionId)) with
  | none => .error .unknownConnection
  | some c =>
    if !c.enabled then .error .disabledConnection
    else if !projectOk o.ProjectId then .error .malformedProject
    else
      match since with
      | some t =>
        if start < t then .error .sinceInFuture
        else .ok ⟨o.ConnectionId, o.ProjectId, o.taskNames, some t⟩
      | none => .ok ⟨o.ConnectionId, o.ProjectId, o.taskNames, none⟩

/-- Modelled from the spec: the resource specification of section 6, as far as
the paginator reads it: the resource name and the ordering guarantee
(`newestFirst`: the source returns data in reverse-chronological order), which
is what enables the early exit of section 4.3. -/
structure ResourceSpec where
  name : GoString
  newestFirst : Bool
deriving DecidableEq, Repr

/-- Modelled from the spec: the remote dataset, which answers the query scoped
by connection, project and resource with the pages of that collection, in the
order in which the source serves them. -/
abbrev Remote := Nat → Int → GoString → List (List RawRecord)

/-- Modelled from the spec: the watermark test of section 4.3, inclusive at the
boundary (`timestamp >= Since` is collected); without a watermark every record
is collected. -/
def atOrAfter (since : Option Time) (r : RawRecord) : Bool :=
  match since with
  | none => true
  | some t => decide (t ≤ r.timestamp)

/-- Modelled from the spec: the early-exit test of section 4.3, all records on
a page are older than `Since` (which holds of a page without records). -/
def allOlder (since : Option Time) (page : List RawRecord) : Bool :=
  match since with
  | none => false
  | some t => page.all (fun r => decide (r.timestamp < t))

/-- Modelled from the spec: the Paginator of section 4.3, whose code is not in
the sources.  It takes the pages in order until the source has no further page,
discards the records with timestamp before `Since`, and, when the early exit is
enabled, stops at a page whose records are all older than `Since`. -/
def paginate (earlyExit : Bool) (since : Option Time) : List (List RawRecord) → List RawRecord
  | [] => []
  | page :: rest =>
    if earlyExit && allOlder since page then []
    else page.filter (atOrAfter since) ++ paginate earlyExit since rest

/-- Modelled from the spec: the resources a run collects (section 4.4): those
named in the task list, or all known resources if the list is empty. -/
def selected (tasks : List GoString) (specs : List ResourceSpec) : List ResourceSpec :=
  if tasks.isEmpty then specs else specs.filter (fun s => tasks.contains s.name)

/-- Modelled from the spec: the record streams of the paginators a run spawns,
one per selected resource. -/
def streams (ctx : TaskContext) (specs : List ResourceSpec) (remote : Remote) :
    List (List RawRecord) :=
  (selected ctx.tasks specs).map (fun s =>
    paginate s.newestFirst ctx.since (remote ctx.connection ctx.project s.name))

/-- Modelled from the spec: one emission on the output stream of section 4.4,
the next record of stream `i`, if that stream exists and is not exhausted, with
the streams that remain. -/
def popAt {α : Type} (i : Nat) (ss : List (List α)) : Option (α × List (List α)) :=
  match ss[i]? with
  | some (x :: xs) => some (x, ss.set i xs)
  | _ => none

/-- Modelled from the spec: the output stream of section 4.4.  Records of
different resources interleave arbitrarily, here as the schedule picks the
emitting paginator step by step; records of one resource keep their order; what
is left when the schedule ends is drained resource by resource. -/
def interleave {α : Type} : List Nat → List (List α) → List α
  | [], ss => ss.flatten
  | i :: schedule, ss =>
    match popAt i ss with
    | some (x, rest) => x :: interleave schedule rest
    | none => interleave schedule ss

/-- Modelled from the spec: the Async Collector of section 4.4, whose code is
not in the sources: `run(taskContext, resourceSpecs)` against a remote dataset,
under one scheduling of its paginators. -/
def run (ctx : TaskContext) (specs : List ResourceSpec) (remote : Remote)
    (schedule : List Nat) : List RawRecord :=
  interleave schedule (streams ctx specs remote)

/-- A record of resource `name` with a one-byte identifier and a timestamp. -/
def sampleRecord (name : GoString) (id : Fin 256) (timestamp : Time) : RawRecord :=
  ⟨name, [id], timestamp, []⟩

/-- A small remote: commits served newest first over three pages, issues in no
particular order. -/
def sampleRemote : Remote := fun _ _ resource =>
  if resource = commitsTask then
    [[sampleRecord commitsTask 1 200, sampleRecord commitsTask 2 100],
      [sampleRecord commitsTask 3 99], [sampleRecord commitsTask 4 50]]
  else if resource = issuesTask then
    [[sampleRecord issuesTask 1 10, sampleRecord issuesTask 2 300],
      [sampleRecord issuesTask 3 100]]
  else []

/-- The resources known to the sample run: commits with the early exit enabled,
issues without. -/
def sampleSpecs : List ResourceSpec :=
  [⟨commitsTask, true⟩, ⟨issuesTask, false⟩]

/-- The connections known to the sample run: 1 is enabled, 2 is disabled. -/
def sampleConnections : List Connection :=
  [⟨1, ascii "https://gitlab.com/api/v4/", ascii "token", true⟩,
    ⟨2, ascii "https://gitlab.com/api/v4/", ascii "token", false⟩]

/-- A lake in which `jira_issues` holds issue 7 twice (once per connection),
both resolved before the cutoff, and one sprint-issue row refers to it. -/
def repeatedIssueDb : Database :=
  { gitlab_commits := []
    jira_sprint_issues := [⟨1, some 7⟩]
    jira_issues :=
      [⟨some 7, some ⟨2020, 1, 1, 0, 0, 0, 0⟩⟩, ⟨some 7, some ⟨2020, 1, 1, 0, 0, 0, 0⟩⟩]
    queryError := none }

theorem lexLt_irrefl (l : List Nat) : lexLt l l = false := by
  induction l with
  | nil => rfl
  | cons a l ih => simp [lexLt, ih]

theorem DateTime.before_irrefl (d : DateTime) : d.before d = false :=
  lexLt_irrefl _

theorem rowLoop_all_scanned {γ α : Type} (scan : γ → Except GoError α) (rs : List γ)
    (acc : List α) (h : ∀ v ∈ rs, ∃ a, scan v = .ok a) :
    (rowLoop scan rs acc).2 = (acc ++ rs.filterMap (fun v => (scan v).toOption), true) := by
  induction rs generalizing acc with
  | nil => simp [rowLoop]
  | cons v rest ih =>
    obtain ⟨a, ha⟩ := h v (List.mem_cons_self _ _)
    have hrest : ∀ w ∈ rest, ∃ b, scan w = .ok b :=
      fun w hw => h w (List.mem_cons_of_mem _ hw)
    simp [rowLoop, ha, ih _ hrest, Except.toOption]

theorem rowLoop_scan_failure {γ α : Type} (scan : γ → Except GoError α) (rs : List γ)
    (acc : List α) (h : ∃ v ∈ rs, ∀ a, scan v ≠ .ok a) :
    (rowLoop scan rs acc).2.2 = false := by
  induction rs generalizing acc with
  | nil => simp at h
  | cons v rest ih =>
    cases hv : scan v with
    | error e => simp [rowLoop, hv]
    | ok a =>
      obtain ⟨w, hw, hbad⟩ := h
      rcases List.mem_cons.1 hw with rfl | hw
      · exact absurd hv (hbad a)
      · simpa [rowLoop, hv] using ih _ ⟨w, hw, hbad⟩

theorem rowLoop_events {γ α : Type} (scan : γ → Except GoError α) (rs : List γ)
    (acc : List α) : ∀ e ∈ (rowLoop scan rs acc).1, e.inLoop = true := by
  induction rs generalizing acc with
  | nil => simp [rowLoop, Event.inLoop]
  | cons v rest ih =>
    cases hv : scan v with
    | error e => simp [rowLoop, hv, Event.inLoop]
    | ok a =>
      intro e he
      simp only [rowLoop, hv, List.mem_cons] at he
      rcases he with rfl | rfl | rfl | he
      · rfl
      · rfl
      · rfl
      · exact ih _ e he

theorem Event.inLoop_not_failure (e : Event) (h : e.inLoop = true) : e.isFailure = false := by
  cases e <;> simp_all [Event.inLoop, Event.isFailure]

theorem rowLoop_no_failure {γ α : Type} (scan : γ → Except GoError α) (rs : List γ)
    (acc : List α) : (rowLoop scan rs acc).1.any Event.isFailure = false := by
  rw [List.any_eq_false]
  intro e he
  simp [Event.inLoop_not_failure e (rowLoop_events scan rs acc e he)]

/-- A test whose query succeeds and whose rows all scan: it returns, after the
final assertion on the number of rows. -/
theorem runQueryTest_all_scanned {γ α : Type} (db : Database) (rows : Database → List γ)
    (scan : γ → Except GoError α) (expected : Nat) (hq : db.queryError = none)
    (hscan : ∀ v ∈ rows db, ∃ a, scan v = .ok a) :
    runQueryTest (.ok db) rows scan expected =
      ⟨[.assertNil true, .query true, .assertNil true, .deferClose true] ++
          (rowLoop scan (rows db) []).1 ++
          [.assertEqual expected ((rows db).filterMap (fun v => (scan v).toOption)).length,
            .close true],
        (rows db).filterMap (fun v => (scan v).toOption), .returned⟩ := by
  have h := rowLoop_all_scanned scan (rows db) [] hscan
  have h1 : (rowLoop scan (rows db) []).2.1 =
      (rows db).filterMap (fun v => (scan v).toOption) := by rw [h]; simp
  have h2 : (rowLoop scan (rows db) []).2.2 = true := by rw [h]
  simp [runQueryTest, Database.Query, hq, h1, h2]

theorem runQueryTest_scan_failure {γ α : Type} (db : Database) (rows : Database → List γ)
    (scan : γ → Except GoError α) (expected : Nat) (hq : db.queryError = none)
    (hbad : ∃ v ∈ rows db, ∀ a, scan v ≠ .ok a) :
    runQueryTest (.ok db) rows scan expected =
      ⟨[.assertNil true, .query true, .assertNil true, .deferClose true] ++
          (rowLoop scan (rows db) []).1 ++ [.close true],
        (rowLoop scan (rows db) []).2.1, .panicked⟩ := by
  have h2 := rowLoop_scan_failure scan (rows db) [] hbad
  simp [runQueryTest, Database.Query, hq, h2]

theorem runQueryTest_query_failure {γ α : Type} (db : Database) (rows : Database → List γ)
    (scan : γ → Except GoError α) (expected : Nat) (e : GoError)
    (hq : db.queryError = some e) :
    runQueryTest (.ok db) rows scan expected =
      ⟨[.assertNil true, .query false, .printError, .assertNil false,
        .deferClose false, .next false, .close false], [], .panicked⟩ := by
  simp [runQueryTest, Database.Query, hq]

theorem runQueryTest_failed_iff {γ α : Type} (db : Database) (rows : Database → List γ)
    (scan : γ → Except GoError α) (expected : Nat) (hq : db.queryError = none)
    (hscan : ∀ v ∈ rows db, ∃ a, scan v = .ok a) :
    (runQueryTest (.ok db) rows scan expected).failed = false ↔
      ((rows db).filterMap (fun v => (scan v).toOption)).length = expected := by
  rw [runQueryTest_all_scanned db rows scan expected hq hscan]
  simp only [TestRun.failed, List.any_append, rowLoop_no_failure, List.any_cons, List.any_nil,
    Event.isFailure, Bool.not_true, Bool.or_false, Bool.false_or, Bool.not_eq_false',
    decide_eq_true_eq]
  exact eq_comm

theorem isOk_iff {α : Type} {r : Except GoError α} : r.isOk = true ↔ ∃ a, r = .ok a := by
  cases r <;> simp [Except.isOk, Except.toBool]

theorem commits_scanned (rs : List (Option GoString))
    (h : ∀ v ∈ rs, ∃ s, scanString v = .ok s) :
    (rs.filterMap (fun v => ((scanString v).map Commit.mk).toOption)).map
      (fun c => some c.Sha) = rs := by
  induction rs with
  | nil => rfl
  | cons v rest ih =>
    obtain ⟨s, hs⟩ := h v (List.mem_cons_self _ _)
    have hrest := ih (fun w hw => h w (List.mem_cons_of_mem _ hw))
    cases v with
    | none => simp [scanString] at hs
    | some b => simpa [scanString, Except.map, Except.toOption] using hrest

theorem issues_scanned (rs : List (Option Int))
    (h : ∀ v ∈ rs, ∃ i, scanInt v = .ok i) :
    (rs.filterMap (fun v => ((scanInt v).map JiraSprintIssue.mk).toOption)).map
      (fun c => some c.IssueId) = rs := by
  induction rs with
  | nil => rfl
  | cons v rest ih =>
    obtain ⟨i, hi⟩ := h v (List.mem_cons_self _ _)
    have hrest := ih (fun w hw => h w (List.mem_cons_of_mem _ hw))
    cases v with
    | none => simp [scanInt] at hi
    | some b =>
      by_cases hb : isInt b
      · simpa [scanInt, hb, Except.map, Except.toOption] using hrest
      · simp [scanInt, hb] at hi

theorem sqlTrue_sqlLt (a : Option DateTime) (b : DateTime) :
    sqlTrue (sqlLt a b) = (match a with | some d => d.before b | none => false) := by
  cases a with
  | none => rfl
  | some d => cases h : d.before b <;> simp [sqlTrue, sqlLt, h]

theorem commitsQuery_eq (db : Database) :
    commitsQuery db = (db.gitlab_commits.filter authoredEarlier).map (fun r => r.sha) := by
  unfold commitsQuery
  congr 1
  apply List.filter_congr
  intro r _
  rw [sqlTrue_sqlLt]
  rfl

theorem join_condition_eq (si : JiraSprintIssueRow) (ji : JiraIssueRow) :
    (sqlTrue (sqlEq ji.issue_id si.issue_id) &&
      sqlTrue (sqlLt ji.resolution_date sprintIssuesCutoff)) = resolvedPair (si, ji) := by
  rw [sqlTrue_sqlLt]
  unfold resolvedPair
  cases h1 : si.issue_id <;> cases h2 : ji.issue_id <;> cases h3 : ji.resolution_date <;>
    simp [sqlEq, sqlTrue]
  rename_i a b d
  congr 1
  exact decide_eq_decide.2 eq_comm

theorem sprintIssuesQuery_eq (db : Database) :
    sprintIssuesQuery db =
      ((db.jira_sprint_issues ×ˢ db.jira_issues).filter resolvedPair).map
        (fun p => p.1.issue_id) := by
  unfold sprintIssuesQuery
  generalize db.jira_sprint_issues = sis
  induction sis with
  | nil => simp
  | cons si rest ih =>
    rw [List.flatMap_cons, ih, List.product_cons, List.filter_append, List.map_append]
    congr 1
    simp only [List.filter_map, List.map_map]
    congr 1
    apply List.filter_congr
    intro ji _
    exact join_condition_eq si ji

/-- C2: when the database opens, the query succeeds and every row scans,
`TestGitLabCommits` returns with one `Commit` per row of `gitlab_commits` whose
`authored_date` is present and strictly before `2019-06-25 02:41:42.000`, each
carrying the sha of its row, in the order of the rows; a row dated at the cutoff
or without a date is not counted; the final assertion is made on that number
and the test stays unfailed exactly when the number is 2817. -/
theorem TestGitLabCommits_counts_rows_before_cutoff (db : Database)
    (hq : db.queryError = none)
    (hrows : ∀ v ∈ commitsQuery db, (scanString v).isOk = true) :
    (TestGitLabCommits (.ok db)).exit = .returned ∧
    (TestGitLabCommits (.ok db)).collected.map (fun c => some c.Sha) =
      (db.gitlab_commits.filter authoredEarlier).map (fun r => r.sha) ∧
    (TestGitLabCommits (.ok db)).collected.length =
      (db.gitlab_commits.filter authoredEarlier).length ∧
    (∀ r, authoredEarlier r = true ↔
      ∃ d, r.authored_date = some d ∧ d.before commitsCutoff = true) ∧
    (∀ r, r.authored_date = some commitsCutoff ∨ r.authored_date = none →
      authoredEarlier r = false) ∧
    Event.assertEqual 2817 (db.gitlab_commits.filter authoredEarlier).length ∈
      (TestGitLabCommits (.ok db)).events ∧
    ((TestGitLabCommits (.ok db)).failed = false ↔
      (db.gitlab_commits.filter authoredEarlier).length = 2817) := by
  have hscan : ∀ v ∈ commitsQuery db, ∃ s, scanString v = .ok s := fun v hv =>
    isOk_iff.1 (hrows v hv)
  have hrun := runQueryTest_all_scanned db commitsQuery
    (fun v => (scanString v).map Commit.mk) 2817 hq
    (fun v hv => by
      obtain ⟨s, hs⟩ := hscan v hv
      exact ⟨⟨s⟩, by simp [hs, Except.map]⟩)
  have hfail := runQueryTest_failed_iff db commitsQuery
    (fun v => (scanString v).map Commit.mk) 2817 hq
    (fun v hv => by
      obtain ⟨s, hs⟩ := hscan v hv
      exact ⟨⟨s⟩, by simp [hs, Except.map]⟩)
  have hmap := commits_scanned (commitsQuery db) hscan
  have hlen : ((commitsQuery db).filterMap
      (fun v => ((scanString v).map Commit.mk).toOption)).length =
      (db.gitlab_commits.filter authoredEarlier).length := by
    have := congrArg List.length hmap
    rw [List.length_map] at this
    rw [this, commitsQuery_eq, List.length_map]
  refine ⟨?_, ?_, ?_, ?_, ?_, ?_, ?_⟩
  · simp only [TestGitLabCommits, hrun]
  · simp only [TestGitLabCommits, hrun]
    rw [hmap, commitsQuery_eq]
  · simp only [TestGitLabCommits, hrun]
    exact hlen
  · intro r
    unfold authoredEarlier
    cases r.authored_date <;> simp
  · intro r hr
    unfold authoredEarlier
    rcases hr with h | h <;> rw [h]
    exact DateTime.before_irrefl _
  · simp only [TestGitLabCommits, hrun, hlen]
    simp
  · simp only [TestGitLabCommits] at hfail ⊢
    rw [hfail, hlen]

theorem TestGitLabCommits_counts_rows_before_cutoff_witness :
    (TestGitLabCommits (.ok sampleCommitsDb)).collected = [⟨[97]⟩] ∧
    ((TestGitLabCommits (.ok sampleCommitsDb)).failed = false ↔
      (sampleCommitsDb.gitlab_commits.filter authoredEarlier).length = 2817) :=
  ⟨by decide,
    (TestGitLabCommits_counts_rows_before_cutoff sampleCommitsDb rfl (by decide)).2.2.2.2.2.2⟩

/-- C3: when the query succeeds and every row scans, `TestJiraSprintIssues`
returns with one entry per pair of a `jira_sprint_issues` row and a
`jira_issues` row that have the same `issue_id` and a `resolution_date` that is
present and strictly before `2020-06-19 06:31:18.495`, each carrying that
`issue_id`; the final assertion is made on the number of such pairs, which is
the number of sprint-issue records the test has built, and the test stays
unfailed exactly when that number is 78. -/
theorem TestJiraSprintIssues_counts_pairs_before_cutoff (db : Database)
    (hq : db.queryError = none)
    (hrows : ∀ v ∈ sprintIssuesQuery db, (scanInt v).isOk = true) :
    (TestJiraSprintIssues (.ok db)).exit = .returned ∧
    (TestJiraSprintIssues (.ok db)).collected.map (fun c => some c.IssueId) =
      ((db.jira_sprint_issues ×ˢ db.jira_issues).filter resolvedPair).map
        (fun p => p.1.issue_id) ∧
    (TestJiraSprintIssues (.ok db)).collected.length =
      ((db.jira_sprint_issues ×ˢ db.jira_issues).filter resolvedPair).length ∧
    (∀ p, resolvedPair p = true ↔
      ∃ i d, p.1.issue_id = some i ∧ p.2.issue_id = some i ∧
        p.2.resolution_date = some d ∧ d.before sprintIssuesCutoff = true) ∧
    (∀ p, p.2.resolution_date = some sprintIssuesCutoff ∨ p.2.resolution_date = none →
      resolvedPair p = false) ∧
    Event.assertEqual 78
        ((db.jira_sprint_issues ×ˢ db.jira_issues).filter resolvedPair).length ∈
      (TestJiraSprintIssues (.ok db)).events ∧
    ((TestJiraSprintIssues (.ok db)).failed = false ↔
      ((db.jira_sprint_issues ×ˢ db.jira_issues).filter resolvedPair).length = 78) := by
  have hscan : ∀ v ∈ sprintIssuesQuery db, ∃ i, scanInt v = .ok i := fun v hv =>
    isOk_iff.1 (hrows v hv)
  have hok : ∀ v ∈ sprintIssuesQuery db,
      ∃ a, (fun v => (scanInt v).map JiraSprintIssue.mk) v = .ok a := fun v hv => by
    obtain ⟨i, hi⟩ := hscan v hv
    exact ⟨⟨i⟩, by simp [hi, Except.map]⟩
  have hrun := runQueryTest_all_scanned db sprintIssuesQuery
    (fun v => (scanInt v).map JiraSprintIssue.mk) 78 hq hok
  have hfail := runQueryTest_failed_iff db sprintIssuesQuery
    (fun v => (scanInt v).map JiraSprintIssue.mk) 78 hq hok
  have hmap := issues_scanned (sprintIssuesQuery db) hscan
  have hlen : ((sprintIssuesQuery db).filterMap
      (fun v => ((scanInt v).map JiraSprintIssue.mk).toOption)).length =
      ((db.jira_sprint_issues ×ˢ db.jira_issues).filter resolvedPair).length := by
    have := congrArg List.length hmap
    rw [List.length_map] at this
    rw [this, sprintIssuesQuery_eq, List.length_map]
  refine ⟨?_, ?_, ?_, ?_, ?_, ?_, ?_⟩
  · simp only [TestJiraSprintIssues, hrun]
  · simp only [TestJiraSprintIssues, hrun]
    rw [hmap, sprintIssuesQuery_eq]
  · simp only [TestJiraSprintIssues, hrun]
    exact hlen
  · intro p
    unfold resolvedPair
    cases p.1.issue_id <;> cases p.2.issue_id <;> cases p.2.resolution_date <;> simp
    intro _
    exact eq_comm
  · intro p hp
    unfold resolvedPair
    rcases hp with h | h <;> rw [h]
    · cases p.1.issue_id <;> cases p.2.issue_id <;> simp [DateTime.before_irrefl]
    · cases p.1.issue_id <;> cases p.2.issue_id <;> simp
  · simp only [TestJiraSprintIssues, hrun, hlen]
    simp
  · simp only [TestJiraSprintIssues] at hfail ⊢
    rw [hfail, hlen]

theorem TestJiraSprintIssues_counts_pairs_before_cutoff_witness :
    (TestJiraSprintIssues (.ok sampleSprintDb)).collected = [⟨7⟩, ⟨7⟩] ∧
    ((TestJiraSprintIssues (.ok sampleSprintDb)).failed = false ↔
      ((sampleSprintDb.jira_sprint_issues ×ˢ sampleSprintDb.jira_issues).filter
        resolvedPair).length = 78) :=
  ⟨by decide,
    (TestJiraSprintIssues_counts_pairs_before_cutoff sampleSprintDb rfl
      (by decide)).2.2.2.2.2.2⟩

theorem rowLoop_starts_with_next {γ α : Type} (scan : γ → Except GoError α) (rs : List γ)
    (acc : List α) : Event.next true ∈ (rowLoop scan rs acc).1 := by
  cases rs with
  | nil => simp [rowLoop]
  | cons v rest => cases hv : scan v <;> simp [rowLoop, hv]

/-- Control flow of a test whose query succeeded: every step on the result set
acts on a present one; the final count assertion is reached when all rows scan
and is not reached when one does not. -/
theorem runQueryTest_flow {γ α : Type} (db : Database) (rows : Database → List γ)
    (scan : γ → Except GoError α) (expected : Nat) (hq : db.queryError = none) :
    Event.deferClose true ∈ (runQueryTest (.ok db) rows scan expected).events ∧
    Event.next true ∈ (runQueryTest (.ok db) rows scan expected).events ∧
    Event.close true ∈ (runQueryTest (.ok db) rows scan expected).events ∧
    (∀ e ∈ (runQueryTest (.ok db) rows scan expected).events,
      e.onResultSet ≠ some false) ∧
    ((∀ v ∈ rows db, (scan v).isOk = true) →
      (runQueryTest (.ok db) rows scan expected).exit = .returned ∧
      Event.assertEqual expected
          (runQueryTest (.ok db) rows scan expected).collected.length ∈
        (runQueryTest (.ok db) rows scan expected).events) ∧
    ((∃ v ∈ rows db, (scan v).isOk = false) →
      (runQueryTest (.ok db) rows scan expected).exit = .panicked ∧
      ∀ e ∈ (runQueryTest (.ok db) rows scan expected).events, e.isCount = false) := by
  have hloop := rowLoop_events scan (rows db) []
  have hnext := rowLoop_starts_with_next scan (rows db) []
  have hset : ∀ e ∈ (rowLoop scan (rows db) []).1, e.onResultSet ≠ some false := by
    intro e he
    have h := hloop e he
    cases e with
    | next present => cases present <;> simp_all [Event.inLoop, Event.onResultSet]
    | _ => simp_all [Event.inLoop, Event.onResultSet]
  have hcount : ∀ e ∈ (rowLoop scan (rows db) []).1, e.isCount = false := by
    intro e he
    have h := hloop e he
    cases e with
    | next present => rfl
    | _ => simp_all [Event.inLoop, Event.isCount]
  by_cases hall : ∀ v ∈ rows db, (scan v).isOk = true
  · have hrun := runQueryTest_all_scanned db rows scan expected hq
      (fun v hv => isOk_iff.1 (hall v hv))
    rw [hrun]
    refine ⟨by simp, by simp [hnext], by simp, ?_, fun _ => by simp, ?_⟩
    · intro e he
      simp only [List.mem_append, List.mem_cons, List.mem_singleton, List.not_mem_nil,
        or_false] at he
      rcases he with ((rfl | rfl | rfl | rfl) | he) | rfl | rfl <;>
        first
          | exact hset e he
          | simp [Event.onResultSet]
    · rintro ⟨v, hv, hbad⟩
      rw [hall v hv] at hbad
      exact absurd hbad (by decide)
  · have hbad : ∃ v ∈ rows db, ∀ a, scan v ≠ .ok a := by
      push_neg at hall
      obtain ⟨v, hv, hne⟩ := hall
      refine ⟨v, hv, fun a ha => hne ?_⟩
      rw [ha]
      rfl
    have hrun := runQueryTest_scan_failure db rows scan expected hq hbad
    rw [hrun]
    refine ⟨by simp, by simp [hnext], by simp, ?_, fun h => absurd h hall, fun _ => ⟨rfl, ?_⟩⟩
    · intro e he
      simp only [List.mem_append, List.mem_cons, List.mem_singleton, List.not_mem_nil,
        or_false] at he
      rcases he with ((rfl | rfl | rfl | rfl) | he) | rfl <;>
        first
          | exact hset e he
          | simp [Event.onResultSet]
    · intro e he
      simp only [List.mem_append, List.mem_cons, List.mem_singleton, List.not_mem_nil,
        or_false] at he
      rcases he with ((rfl | rfl | rfl | rfl) | he) | rfl <;>
        first
          | exact hcount e he
          | rfl

/-- C10: in `TestGitLabCommits` and `TestJiraSprintIssues` a failure to open
the database records the failed assertion and exits the process before any
query; a failing query only records a failed assertion, after which the test
still defers `Close` on, and calls `Next` on, the absent result set; when the
query succeeded every step on the result set acts on a present one, the final
count assertion is reached if all rows scan, and a row that does not scan
panics before that assertion. -/
theorem failed_query_does_not_stop_the_tests (db : Database) (e : GoError) :
    ((TestGitLabCommits (.error e)).events = [.assertNil false, .logFatal] ∧
      (TestGitLabCommits (.error e)).exit = .fatal ∧
      (TestJiraSprintIssues (.error e)).events = [.assertNil false, .logFatal] ∧
      (TestJiraSprintIssues (.error e)).exit = .fatal) ∧
    (db.queryError = some e →
      (TestGitLabCommits (.ok db)).events = failedQuerySteps ∧
      (TestGitLabCommits (.ok db)).exit = .panicked ∧
      (TestGitLabCommits (.ok db)).failed = true ∧
      (TestJiraSprintIssues (.ok db)).events = failedQuerySteps ∧
      (TestJiraSprintIssues (.ok db)).exit = .panicked ∧
      (TestJiraSprintIssues (.ok db)).failed = true) ∧
    (db.queryError = none →
      (Event.deferClose true ∈ (TestGitLabCommits (.ok db)).events ∧
        Event.next true ∈ (TestGitLabCommits (.ok db)).events ∧
        Event.close true ∈ (TestGitLabCommits (.ok db)).events ∧
        (∀ ev ∈ (TestGitLabCommits (.ok db)).events, ev.onResultSet ≠ some false) ∧
        ((∀ v ∈ commitsQuery db, (scanString v).isOk = true) →
          (TestGitLabCommits (.ok db)).exit = .returned ∧
          Event.assertEqual 2817 (TestGitLabCommits (.ok db)).collected.length ∈
            (TestGitLabCommits (.ok db)).events) ∧
        ((∃ v ∈ commitsQuery db, (scanString v).isOk = false) →
          (TestGitLabCommits (.ok db)).exit = .panicked ∧
          ∀ ev ∈ (TestGitLabCommits (.ok db)).events, ev.isCount = false)) ∧
      (Event.deferClose true ∈ (TestJiraSprintIssues (.ok db)).events ∧
        Event.next true ∈ (TestJiraSprintIssues (.ok db)).events ∧
        Event.close true ∈ (TestJiraSprintIssues (.ok db)).events ∧
        (∀ ev ∈ (TestJiraSprintIssues (.ok db)).events, ev.onResultSet ≠ some false) ∧
        ((∀ v ∈ sprintIssuesQuery db, (scanInt v).isOk = true) →
          (TestJiraSprintIssues (.ok db)).exit = .returned ∧
          Event.assertEqual 78 (TestJiraSprintIssues (.ok db)).collected.length ∈
            (TestJiraSprintIssues (.ok db)).events) ∧
        ((∃ v ∈ sprintIssuesQuery db, (scanInt v).isOk = false) →
          (TestJiraSprintIssues (.ok db)).exit = .panicked ∧
          ∀ ev ∈ (TestJiraSprintIssues (.ok db)).events, ev.isCount = false))) := by
  have hmapS : ∀ v : Option GoString,
      ((scanString v).map Commit.mk).isOk = (scanString v).isOk := by
    intro v; cases scanString v <;> rfl
  have hmapI : ∀ v : Option Int,
      ((scanInt v).map JiraSprintIssue.mk).isOk = (scanInt v).isOk := by
    intro v; cases scanInt v <;> rfl
  refine ⟨⟨rfl, rfl, rfl, rfl⟩, fun hq => ?_, fun hq => ⟨?_, ?_⟩⟩
  · have h1 := runQueryTest_query_failure db commitsQuery
      (fun v => (scanString v).map Commit.mk) 2817 e hq
    have h2 := runQueryTest_query_failure db sprintIssuesQuery
      (fun v => (scanInt v).map JiraSprintIssue.mk) 78 e hq
    unfold TestGitLabCommits TestJiraSprintIssues
    rw [h1, h2]
    exact ⟨rfl, rfl, by decide, rfl, rfl, by decide⟩
  · have h := runQueryTest_flow db commitsQuery
      (fun v => (scanString v).map Commit.mk) 2817 hq
    simp only [hmapS] at h
    exact h
  · have h := runQueryTest_flow db sprintIssuesQuery
      (fun v => (scanInt v).map JiraSprintIssue.mk) 78 hq
    simp only [hmapI] at h
    exact h

theorem failed_query_does_not_stop_the_tests_witness :
    brokenDb.queryError = some ⟨1146⟩ ∧
    (TestGitLabCommits (.ok brokenDb)).events = failedQuerySteps ∧
    (TestGitLabCommits (.ok brokenDb)).exit = .panicked ∧
    (TestGitLabCommits (.ok brokenDb)).failed = true ∧
    (TestJiraSprintIssues (.ok brokenDb)).events = failedQuerySteps ∧
    (TestJiraSprintIssues (.ok brokenDb)).exit = .panicked ∧
    (TestJiraSprintIssues (.ok brokenDb)).failed = true :=
  ⟨rfl, (failed_query_does_not_stop_the_tests brokenDb ⟨1146⟩).2.1 rfl⟩

/-- C5: for every connection identifier, project identifier, ordered list of
sub-task names (possibly empty) and watermark (absent or a timestamp) there is
a `GitlabTaskData` whose `GitlabOptions` and `Since` hold them; the fields read
back the same values, the task names in the same order; the absent watermark
differs from every timestamp; and the options hold nothing beyond the three
fields, the task data nothing beyond its four. -/
theorem task_context_holds_scope (A P : Type) (c : Nat) (p : Int) (ts : List GoString)
    (s : Option Time) (hc : isUint64 c) (hp : isInt p) :
    (∃ (d : GitlabTaskData A P) (o : GitlabOptions),
      d.Options = some o ∧ o.WellTyped ∧ o.ConnectionId = c ∧ o.ProjectId = p ∧
      o.taskNames = ts ∧ (∀ i : Nat, o.taskNames[i]? = ts[i]?) ∧ d.Since = s) ∧
    (GitlabOptions.mk c p none).taskNames = [] ∧
    (GitlabOptions.mk c p (some [])).taskNames = [] ∧
    (∀ t : Time, (none : Option Time) ≠ some t) ∧
    (∀ o1 o2 : GitlabOptions, o1.ConnectionId = o2.ConnectionId →
      o1.ProjectId = o2.ProjectId → o1.Tasks = o2.Tasks → o1 = o2) ∧
    (∀ d1 d2 : GitlabTaskData A P, d1.Options = d2.Options → d1.ApiClient = d2.ApiClient →
      d1.ProjectCommit = d2.ProjectCommit → d1.Since = d2.Since → d1 = d2) := by
  refine ⟨?_, rfl, rfl, ?_, ?_, ?_⟩
  · exact ⟨⟨some ⟨c, p, some ts⟩, none, none, s⟩, ⟨c, p, some ts⟩, rfl, ⟨hc, hp⟩, rfl, rfl,
      rfl, fun _ => rfl, rfl⟩
  · intro t h
    cases h
  · intro o1 o2 h1 h2 h3
    cases o1; cases o2
    simp_all
  · intro d1 d2 h1 h2 h3 h4
    cases d1; cases d2
    simp_all

theorem task_context_holds_scope_witness :
    isUint64 1 ∧ isInt 42 ∧
    ∃ (d : GitlabTaskData Unit Unit) (o : GitlabOptions),
      d.Options = some o ∧ o.WellTyped ∧ o.ConnectionId = 1 ∧ o.ProjectId = 42 ∧
      o.taskNames = [commitsTask] ∧ (∀ i : Nat, o.taskNames[i]? = [commitsTask][i]?) ∧
      d.Since = none :=
  ⟨by decide, by decide,
    (task_context_holds_scope Unit Unit 1 42 [commitsTask] none (by decide) (by decide)).1⟩

/-- No function reads the `authored_date` of its row back from a `Commit`: two
rows with the same sha and different dates scan to the same `Commit`. -/
theorem commit_timestamp_not_determined :
    ¬ ∃ timestamp : Commit → Option DateTime, ∀ (r : GitlabCommitRow) (c : Commit),
        (scanString r.sha).map Commit.mk = .ok c → timestamp c = r.authored_date := by
  rintro ⟨f, hf⟩
  have h1 := hf earlyRow ⟨[97]⟩ rfl
  have h2 := hf lateRow ⟨[97]⟩ rfl
  rw [h1] at h2
  exact absurd h2 (by decide)

/-- No function reads the `resolution_date` of the joined issue back from a
`JiraSprintIssue`. -/
theorem sprint_issue_timestamp_not_determined :
    ¬ ∃ timestamp : JiraSprintIssue → Option DateTime,
        ∀ (si : JiraSprintIssueRow) (ji : JiraIssueRow) (j : JiraSprintIssue),
          ji.issue_id = si.issue_id →
          (scanInt si.issue_id).map JiraSprintIssue.mk = .ok j →
          timestamp j = ji.resolution_date := by
  rintro ⟨f, hf⟩
  have h1 := hf ⟨1, some 7⟩ ⟨some 7, none⟩ ⟨7⟩ rfl rfl
  have h2 := hf ⟨1, some 7⟩ ⟨some 7, some sprintIssuesCutoff⟩ ⟨7⟩ rfl rfl
  rw [h1] at h2
  exact absurd h2 (by decide)

/-- C6 (as stated, refuted): a record does not carry a timestamp.  The rows
`earlyRow` and `lateRow` of `gitlab_commits` have the same sha and different
`authored_date`, and scan to the same `Commit`; so no function reads the
timestamp of its row back from a `Commit`, and likewise none reads the
`resolution_date` back from a `JiraSprintIssue`. -/
theorem record_timestamp_not_readable :
    earlyRow.authored_date ≠ lateRow.authored_date ∧
    (scanString earlyRow.sha).map Commit.mk = (scanString lateRow.sha).map Commit.mk ∧
    (¬ ∃ timestamp : Commit → Option DateTime, ∀ (r : GitlabCommitRow) (c : Commit),
        (scanString r.sha).map Commit.mk = .ok c → timestamp c = r.authored_date) ∧
    (¬ ∃ timestamp : JiraSprintIssue → Option DateTime,
        ∀ (si : JiraSprintIssueRow) (ji : JiraIssueRow) (j : JiraSprintIssue),
          ji.issue_id = si.issue_id →
          (scanInt si.issue_id).map JiraSprintIssue.mk = .ok j →
          timestamp j = ji.resolution_date) :=
  ⟨by decide, rfl, commit_timestamp_not_determined, sprint_issue_timestamp_not_determined⟩

/-- C6 (amended): every `Commit` carries its identifier `Sha` and every
`JiraSprintIssue` its identifier `IssueId`, which is the value scanned from the
row and can be read from the record; the record carries nothing else, it is
determined by its identifier, and the timestamp used for watermark comparison
cannot be read from it. -/
theorem record_carries_identifier_only :
    (∀ s : GoString, (Commit.mk s).Sha = s) ∧
    (∀ i : Int, (JiraSprintIssue.mk i).IssueId = i) ∧
    (∀ c1 c2 : Commit, c1.Sha = c2.Sha → c1 = c2) ∧
    (∀ j1 j2 : JiraSprintIssue, j1.IssueId = j2.IssueId → j1 = j2) ∧
    (∀ (v : Option GoString) (c : Commit),
      (scanString v).map Commit.mk = .ok c → v = some c.Sha) ∧
    (∀ (v : Option Int) (j : JiraSprintIssue),
      (scanInt v).map JiraSprintIssue.mk = .ok j → v = some j.IssueId) ∧
    (¬ ∃ timestamp : Commit → Option DateTime, ∀ (r : GitlabCommitRow) (c : Commit),
        (scanString r.sha).map Commit.mk = .ok c → timestamp c = r.authored_date) ∧
    (¬ ∃ timestamp : JiraSprintIssue → Option DateTime,
        ∀ (si : JiraSprintIssueRow) (ji : JiraIssueRow) (j : JiraSprintIssue),
          ji.issue_id = si.issue_id →
          (scanInt si.issue_id).map JiraSprintIssue.mk = .ok j →
          timestamp j = ji.resolution_date) := by
  refine ⟨fun _ => rfl, fun _ => rfl, ?_, ?_, ?_, ?_, commit_timestamp_not_determined,
    sprint_issue_timestamp_not_determined⟩
  · intro c1 c2 h
    cases c1; cases c2
    simp_all
  · intro j1 j2 h
    cases j1; cases j2
    simp_all
  · intro v c h
    cases v with
    | none => simp [scanString, Except.map] at h
    | some s =>
      simp only [scanString, Except.map, Except.ok.injEq] at h
      rw [← h]
  · intro v j h
    cases v with
    | none => simp [scanInt, Except.map] at h
    | some i =>
      by_cases hi : isInt i
      · simp only [scanInt, hi, if_true, Except.map, Except.ok.injEq] at h
        rw [← h]
      · simp [scanInt, hi, Except.map] at h

theorem coerceFrom_valid (s : GoString) (k : Nat) (h : validFrom k s = true) :
    coerceFrom k s = s := by
  induction s generalizing k with
  | nil => cases k <;> rfl
  | cons b rest ih =>
    cases k with
    | succ k =>
      simp only [validFrom] at h
      simp [coerceFrom, ih k h]
    | zero =>
      simp only [validFrom, Bool.and_eq_true, decide_eq_true_eq] at h
      simp [coerceFrom, h.1, ih _ h.2]

theorem toValidUTF8_valid (s : GoString) (h : validUTF8 s = true) : toValidUTF8 s = s :=
  coerceFrom_valid s 0 h

theorem decode_encoded_names (ts : List GoString) (h : ∀ t ∈ ts, validUTF8 t = true) :
    (ts.map (fun s => JValue.str (toValidUTF8 s))).mapM decodeElem = .ok ts := by
  induction ts with
  | nil => rfl
  | cons t rest ih =>
    have ht := toValidUTF8_valid t (h t (List.mem_cons_self _ _))
    have hrest := ih (fun u hu => h u (List.mem_cons_of_mem _ hu))
    simp only [List.map_cons, List.mapM_cons, hrest, decodeElem, ht]
    rfl

theorem fieldOf_connectionId : fieldOf (ascii "connectionId") = some .connectionId := by
  decide

theorem fieldOf_projectId : fieldOf (ascii "projectId") = some .projectId := by
  decide

theorem fieldOf_tasks : fieldOf (ascii "tasks") = some .tasks := by
  decide

theorem decodeMember_connectionId (o : GitlabOptions) (c : Nat) (hc : isUint64 c) :
    decodeMember o (ascii "connectionId", .int c) = .ok { o with ConnectionId := c } := by
  have hc1 : (0 : Int) ≤ (c : Int) ∧ (c : Int) < 2 ^ 64 := by
    unfold isUint64 at hc
    exact ⟨Int.ofNat_nonneg _, by exact_mod_cast hc⟩
  unfold decodeMember
  rw [fieldOf_connectionId]
  simp only [decodeUint64, hc1, and_self, if_true, Int.toNat_ofNat]
  rfl

theorem decodeMember_projectId (o : GitlabOptions) (p : Int) (hp : isInt p) :
    decodeMember o (ascii "projectId", .int p) = .ok { o with ProjectId := p } := by
  unfold decodeMember
  rw [fieldOf_projectId]
  simp only [decodeInt, hp, if_true]
  rfl

theorem decodeMember_tasks (o : GitlabOptions) (ts : List GoString)
    (h : ∀ t ∈ ts, validUTF8 t = true) :
    decodeMember o (ascii "tasks", .arr (ts.map (fun s => JValue.str (toValidUTF8 s)))) =
      .ok { o with Tasks := some ts } := by
  unfold decodeMember
  rw [fieldOf_tasks]
  simp only [decodeStrings, decode_encoded_names ts h]
  rfl

theorem Unmarshal_Marshal (o : GitlabOptions) (hw : o.WellTyped)
    (hutf : ∀ t ∈ o.taskNames, validUTF8 t = true) :
    Unmarshal (Marshal o) =
      .ok ⟨o.ConnectionId, o.ProjectId, if o.taskNames = [] then none else some o.taskNames⟩ := by
  obtain ⟨hc, hp⟩ := hw
  by_cases hts : o.taskNames = []
  · simp only [Unmarshal, Marshal, hts, List.isEmpty_nil, if_true, List.append_nil,
      List.foldlM_cons, List.foldlM_nil, decodeMember_connectionId _ _ hc,
      decodeMember_projectId _ _ hp]
    rfl
  · have hemp : o.taskNames.isEmpty = false := by
      cases h : o.taskNames with
      | nil => exact absurd h hts
      | cons a l => rfl
    simp only [Unmarshal, Marshal, hts, hemp, if_false, List.cons_append, List.nil_append,
      List.foldlM_cons, List.foldlM_nil, decodeMember_connectionId _ _ hc,
      decodeMember_projectId _ _ hp, Bool.false_eq_true]
    simp only [bind, Except.bind, List.foldlM_cons, List.foldlM_nil,
      decodeMember_tasks _ _ hutf]
    rfl

/-- C9: `GitlabOptions` encodes to an object with the keys `connectionId` and
`projectId`, followed by `tasks` exactly when the task list is non-empty, and
with no other key (none for the watermark, which is a field of
`GitlabTaskData`); a `nil` and an empty task list have the same encoding; when
the numeric fields are in range and the task names are valid UTF-8, decoding
the encoding succeeds and gives back the connection identifier, the project
identifier and the sequence of task names, the slice being `nil` when the
sequence is empty. -/
theorem GitlabOptions_json_round_trip (A P : Type) (o : GitlabOptions) :
    (Marshal o).keys = [ascii "connectionId", ascii "projectId"] ++
      (if o.taskNames = [] then [] else [ascii "tasks"]) ∧
    (ascii "tasks" ∈ (Marshal o).keys ↔ o.taskNames ≠ []) ∧
    (∀ k ∈ (Marshal o).keys,
      k = ascii "connectionId" ∨ k = ascii "projectId" ∨ k = ascii "tasks") ∧
    Marshal ⟨o.ConnectionId, o.ProjectId, none⟩ =
      Marshal ⟨o.ConnectionId, o.ProjectId, some []⟩ ∧
    (∀ (d : GitlabTaskData A P) (since : Option Time),
      ({ d with Since := since }).Options.map Marshal = d.Options.map Marshal) ∧
    (o.WellTyped → (∀ t ∈ o.taskNames, validUTF8 t = true) →
      ∃ o2, Unmarshal (Marshal o) = .ok o2 ∧
        o2.ConnectionId = o.ConnectionId ∧ o2.ProjectId = o.ProjectId ∧
        o2.taskNames = o.taskNames ∧
        (o.taskNames = [] → o2.Tasks = none) ∧
        (o.taskNames ≠ [] → o2.Tasks = o.Tasks)) := by
  have hne : ascii "tasks" ≠ ascii "connectionId" ∧ ascii "tasks" ≠ ascii "projectId" := by
    decide
  refine ⟨?_, ?_, ?_, rfl, fun _ _ => rfl, ?_⟩
  · by_cases hts : o.taskNames = [] <;> simp [Marshal, JValue.keys, hts]
  · by_cases hts : o.taskNames = [] <;> simp [Marshal, JValue.keys, hts, hne.1, hne.2]
  · by_cases hts : o.taskNames = [] <;> simp [Marshal, JValue.keys, hts]
  · intro hw hutf
    refine ⟨_, Unmarshal_Marshal o hw hutf, rfl, rfl, ?_, ?_, ?_⟩
    · by_cases hts : o.taskNames = []
      · simp only [hts, if_true]
        rfl
      · simp only [hts, if_false]
        rfl
    · intro hts
      simp [hts]
    · intro hts
      simp only [hts, if_false]
      cases hT : o.Tasks with
      | none => simp [GitlabOptions.taskNames, hT] at hts
      | some l => simp [GitlabOptions.taskNames, hT]

theorem GitlabOptions_json_round_trip_witness :
    sampleOptions.WellTyped ∧ (∀ t ∈ sampleOptions.taskNames, validUTF8 t = true) ∧
    ∃ o2, Unmarshal (Marshal sampleOptions) = .ok o2 ∧
      o2.ConnectionId = 2 ^ 64 - 1 ∧ o2.ProjectId = -42 ∧
      o2.taskNames = [commitsTask, [0xC3, 0xA9]] ∧
      (sampleOptions.taskNames = [] → o2.Tasks = none) ∧
      (sampleOptions.taskNames ≠ [] → o2.Tasks = sampleOptions.Tasks) :=
  ⟨by decide, by decide,
    (GitlabOptions_json_round_trip Unit Unit sampleOptions).2.2.2.2.2 (by decide) (by decide)⟩

/-- A task name that is not valid UTF-8 does not survive the round trip: the
byte `FF` comes back as the three bytes of U+FFFD. -/
theorem invalid_task_name_is_replaced :
    validUTF8 [0xFF] = false ∧ toValidUTF8 [0xFF] = [0xEF, 0xBF, 0xBD] := by
  decide

theorem popAt_perm {α : Type} (i : Nat) (ss : List (List α)) (x : α) (rest : List (List α))
    (h : popAt i ss = some (x, rest)) : ss.flatten.Perm (x :: rest.flatten) := by
  induction ss generalizing i rest with
  | nil => simp [popAt] at h
  | cons hd tl ih =>
    cases i with
    | zero =>
      cases hd with
      | nil => simp [popAt] at h
      | cons y ys =>
        simp only [popAt, List.getElem?_cons_zero, List.set_cons_zero, Option.some.injEq,
          Prod.mk.injEq] at h
        obtain ⟨rfl, rfl⟩ := h
        simp
    | succ j =>
      simp only [popAt, List.getElem?_cons_succ, List.set_cons_succ] at h
      cases hj : tl[j]? with
      | none => simp [hj] at h
      | some s =>
        cases s with
        | nil => simp [hj] at h
        | cons y ys =>
          simp only [hj, Option.some.injEq, Prod.mk.injEq] at h
          obtain ⟨rfl, rfl⟩ := h
          have htl : popAt j tl = some (y, tl.set j ys) := by simp [popAt, hj]
          have := ih j _ htl
          simp only [List.flatten_cons]
          exact (List.Perm.append_left hd this).trans List.perm_middle

theorem interleave_perm {α : Type} (schedule : List Nat) (ss : List (List α)) :
    (interleave schedule ss).Perm ss.flatten := by
  induction schedule generalizing ss with
  | nil => exact List.Perm.refl _
  | cons i schedule ih =>
    cases h : popAt i ss with
    | none => simpa [interleave, h] using ih ss
    | some p =>
      obtain ⟨x, rest⟩ := p
      simp only [interleave, h]
      exact ((ih rest).cons x).trans (popAt_perm i ss x rest h).symm

/-- C8: two runs of the same task context against the same remote dataset,
under any two schedulings of the paginators, emit the same records: each
record the same number of times, hence the same set, whatever the order. -/
theorem rerun_yields_same_record_set (ctx : TaskContext) (specs : List ResourceSpec)
    (remote : Remote) (first second : List Nat) :
    (run ctx specs remote first).Perm (run ctx specs remote second) ∧
    (∀ r, (run ctx specs remote first).count r = (run ctx specs remote second).count r) ∧
    (∀ r, r ∈ run ctx specs remote first ↔ r ∈ run ctx specs remote second) ∧
    (run ctx specs remote first).length = (run ctx specs remote second).length := by
  have hperm : (run ctx specs remote first).Perm (run ctx specs remote second) :=
    (interleave_perm first _).trans (interleave_perm second _).symm
  exact ⟨hperm, fun r => hperm.count_eq r, fun r => hperm.mem_iff, hperm.length_eq⟩

/-- Two schedulings of one run that emit the same records in different orders. -/
theorem rerun_order_may_differ :
    run ⟨1, 42, [], some 100⟩ sampleSpecs sampleRemote [0, 0, 1, 1] ≠
      run ⟨1, 42, [], some 100⟩ sampleSpecs sampleRemote [1, 1, 0, 0] := by
  decide

/-- C4: constructing a task context validates it.  A `Since` that is present
and later than the collection start time is rejected with a validation error,
which is `sinceInFuture` when connection and project are valid; a `Since` that
is absent or not later than the start time is never rejected on that ground,
and is accepted, with the scope it was given, when connection and project are
valid. -/
theorem NewTaskContext_rejects_future_since (connections : List Connection)
    (projectOk : Int → Bool) (start : Time) (o : GitlabOptions) :
    (∀ t : Time, start < t →
      ∃ e, NewTaskContext connections projectOk start o (some t) = .error e) ∧
    (∀ (t : Time) (c : Connection), start < t →
      connections.find? (fun c => decide (c.id = o.ConnectionId)) = some c →
      c.enabled = true → projectOk o.ProjectId = true →
      NewTaskContext connections projectOk start o (some t) = .error .sinceInFuture) ∧
    (∀ since : Option Time, (∀ t, since = some t → t ≤ start) →
      NewTaskContext connections projectOk start o since ≠ .error .sinceInFuture) ∧
    (∀ (since : Option Time) (c : Connection), (∀ t, since = some t → t ≤ start) →
      connections.find? (fun c => decide (c.id = o.ConnectionId)) = some c →
      c.enabled = true → projectOk o.ProjectId = true →
      NewTaskContext connections projectOk start o since =
        .ok ⟨o.ConnectionId, o.ProjectId, o.taskNames, since⟩) := by
  refine ⟨?_, ?_, ?_, ?_⟩
  · intro t ht
    unfold NewTaskContext
    cases connections.find? (fun c => decide (c.id = o.ConnectionId)) with
    | none => exact ⟨_, rfl⟩
    | some c =>
      obtain ⟨id, url, token, enabled⟩ := c
      cases enabled <;> cases hp : projectOk o.ProjectId <;> simp [ht]
  · intro t c ht hc hen hp
    simp [NewTaskContext, hc, hen, hp, ht]
  · intro since hle
    unfold NewTaskContext
    cases connections.find? (fun c => decide (c.id = o.ConnectionId)) with
    | none => simp
    | some c =>
      obtain ⟨id, url, token, enabled⟩ := c
      cases since with
      | none => cases enabled <;> cases hp : projectOk o.ProjectId <;> simp
      | some t =>
        cases enabled <;> cases hp : projectOk o.ProjectId <;> simp [not_lt.2 (hle t rfl)]
  · intro since c hle hc hen hp
    cases since with
    | none => simp [NewTaskContext, hc, hen, hp]
    | some t => simp [NewTaskContext, hc, hen, hp, not_lt.2 (hle t rfl)]

theorem NewTaskContext_rejects_future_since_witness :
    ((1000 : Time) < 1001 ∧
      NewTaskContext sampleConnections (fun p => decide (0 < p)) 1000
        ⟨1, 42, some [commitsTask]⟩ (some 1001) = .error .sinceInFuture) ∧
    NewTaskContext sampleConnections (fun p => decide (0 < p)) 1000
      ⟨1, 42, some [commitsTask]⟩ (some 1000) = .ok ⟨1, 42, [commitsTask], some 1000⟩ :=
  have h := NewTaskContext_rejects_future_since sampleConnections (fun p => decide (0 < p))
    1000 ⟨1, 42, some [commitsTask]⟩
  ⟨⟨by decide, h.2.1 1001 ⟨1, ascii "https://gitlab.com/api/v4/", ascii "token", true⟩
      (by decide) rfl rfl rfl⟩,
    h.2.2.2 (some 1000) ⟨1, ascii "https://gitlab.com/api/v4/", ascii "token", true⟩
      (fun t ht => by cases ht; exact le_refl _) rfl rfl rfl⟩

/-- The sprint-issues test counts joined pairs: one sprint-issue row that
matches two rows of `jira_issues` is counted twice. -/
theorem sprint_issue_row_may_count_twice :
    repeatedIssueDb.jira_sprint_issues.length = 1 ∧
    (TestJiraSprintIssues (.ok repeatedIssueDb)).collected = [⟨7⟩, ⟨7⟩] := by
  decide

end DevLake
